import Mathlib

/-!
Verification of the request abstraction layer of `guillotina/request.py`.

Bytes are modelled as `Nat` (only identity and length matter to the claims);
byte strings are `List Nat`; decoded text is `String` (the transport hands the
code UTF-8-decodable data, and `bytes.decode` is the identity on the decoded
view).  Stateful attributes of a `Request` instance (`_read_bytes`, `_uid`,
`_state`, `_futures`, the payload stream position) are passed explicitly.
-/

namespace Guillotina

/-- The exception raised by `Request.read` when the accumulated body size
reaches `_client_max_size` (`raise HTTPRequestEntityTooLarge(max_size=...,
actual_size=...)`, request.py lines 322-325). -/
structure HTTPRequestEntityTooLarge where
  max_size : Nat
  actual_size : Nat
deriving DecidableEq, Repr

/-- The part of a `Request`'s mutable state that `read` touches: the
`_read_bytes` cache and the remaining chunks of the payload stream.  The
stream's `readany()` pops the next chunk, and returns the empty chunk once
the list is exhausted (end of stream). -/
structure ReadState where
  read_bytes : Option (List Nat)
  stream : List (List Nat)
deriving DecidableEq, Repr

/-- The `while True` loop of `Request.read` (request.py lines 316-327):
`chunk = await self._payload.readany(); body.extend(chunk)`; then, when
`self._client_max_size` is nonzero and `len(body) >= self._client_max_size`,
`raise HTTPRequestEntityTooLarge(max_size=..., actual_size=len(body))`;
finally `if not chunk: break`.  Returns the loop's outcome together with the
chunks left unread in the stream. -/
def readLoop (L : Nat) (body : List Nat) :
    List (List Nat) → Except HTTPRequestEntityTooLarge (List Nat) × List (List Nat)
  | [] =>
      -- readany() returns the empty chunk at end of stream; body.extend(b'')
      -- is a no-op, then the size check runs, then `if not chunk: break`.
      if L ≠ 0 ∧ L ≤ body.length then
        (.error ⟨L, body.length⟩, [])
      else
        (.ok body, [])
  | c :: rest =>
      let body' := body ++ c
      if L ≠ 0 ∧ L ≤ body'.length then
        (.error ⟨L, body'.length⟩, rest)
      else if c = [] then
        (.ok body', rest)
      else
        readLoop L body' rest

/-- `Request.read` (request.py lines 309-329): if `self._read_bytes is None`
run the drain loop and, on success only, store `bytes(body)` in
`self._read_bytes`; the raise on line 322 leaves `_read_bytes` unset.
Returns the outcome and the updated state. -/
def requestRead (L : Nat) (s : ReadState) :
    Except HTTPRequestEntityTooLarge (List Nat) × ReadState :=
  match s.read_bytes with
  | some b => (.ok b, s)
  | none =>
      match readLoop L [] s.stream with
      | (.ok body, rest) => (.ok body, ⟨some body, rest⟩)
      | (.error e, rest) => (.error e, ⟨none, rest⟩)

/-- Length of the concatenation of the first `n` chunks: the size `read` has
accumulated after draining `n` chunks. -/
def chunksPrefixLen (chunks : List (List Nat)) (n : Nat) : Nat :=
  ((chunks.take n).flatten).length

theorem chunksPrefixLen_zero (chunks : List (List Nat)) :
    chunksPrefixLen chunks 0 = 0 := rfl

theorem chunksPrefixLen_nil (n : Nat) : chunksPrefixLen [] n = 0 := by
  simp [chunksPrefixLen]

theorem chunksPrefixLen_cons (c : List Nat) (rest : List (List Nat)) (n : Nat) :
    chunksPrefixLen (c :: rest) (n + 1) = c.length + chunksPrefixLen rest n := by
  simp [chunksPrefixLen]

theorem chunksPrefixLen_le_total (chunks : List (List Nat)) (i : Nat) :
    chunksPrefixLen chunks i ≤ chunks.flatten.length := by
  conv_rhs => rw [← List.take_append_drop i chunks]
  rw [List.flatten_append, List.length_append]
  exact Nat.le_add_right _ _

/-- If the whole stream stays strictly below the limit, the drain loop
consumes everything and returns the accumulated body. -/
theorem readLoop_ok (L : Nat) :
    ∀ (chunks : List (List Nat)) (body : List Nat),
      (∀ c ∈ chunks, c ≠ []) →
      body.length + chunks.flatten.length < L →
      readLoop L body chunks = (.ok (body ++ chunks.flatten), []) := by
  intro chunks
  induction chunks with
  | nil =>
      intro body _ hlt
      simp only [List.flatten_nil, List.length_nil, Nat.add_zero] at hlt
      simp [readLoop, Nat.not_le_of_lt hlt]
  | cons c rest ih =>
      intro body hne hlt
      have hcne : c ≠ [] := hne c (by simp)
      have hlt' : (body ++ c).length + rest.flatten.length < L := by
        simp only [List.flatten_cons, List.length_append] at hlt ⊢
        omega
      have hbody : ¬ (L ≠ 0 ∧ L ≤ (body ++ c).length) := by
        rintro ⟨-, hle⟩
        omega
      simp only [readLoop, if_neg hbody, if_neg hcne]
      rw [ih (body ++ c) (fun d hd => hne d (by simp [hd])) hlt']
      simp [List.append_assoc]

/-- If the accumulated size first reaches the limit after chunk `k + 1`, the
drain loop raises there, reporting the limit and the size accumulated so
far, and leaves the later chunks unread. -/
theorem readLoop_error (L : Nat) :
    ∀ (chunks : List (List Nat)) (body : List Nat) (k : Nat),
      (∀ c ∈ chunks, c ≠ []) →
      (∀ i ≤ k, body.length + chunksPrefixLen chunks i < L) →
      L ≤ body.length + chunksPrefixLen chunks (k + 1) →
      readLoop L body chunks =
        (.error ⟨L, body.length + chunksPrefixLen chunks (k + 1)⟩,
          chunks.drop (k + 1)) := by
  intro chunks
  induction chunks with
  | nil =>
      intro body k _ hbelow hcross
      exfalso
      have h0 := hbelow 0 (Nat.zero_le k)
      rw [chunksPrefixLen_nil] at h0 hcross
      omega
  | cons c rest ih =>
      intro body k hne hbelow hcross
      have hcne : c ≠ [] := hne c (by simp)
      cases k with
      | zero =>
          have h0 := hbelow 0 (Nat.le_refl 0)
          rw [chunksPrefixLen_zero, Nat.add_zero] at h0
          simp only [chunksPrefixLen_cons, chunksPrefixLen_zero, Nat.add_zero]
            at hcross ⊢
          have hc : L ≠ 0 ∧ L ≤ (body ++ c).length := by
            rw [List.length_append]
            exact ⟨by omega, hcross⟩
          simp only [readLoop]
          rw [if_pos hc, List.length_append]
          simp
      | succ k' =>
          have h1 := hbelow 1 (by omega)
          rw [chunksPrefixLen_cons, chunksPrefixLen_zero, Nat.add_zero] at h1
          have hbody : ¬ (L ≠ 0 ∧ L ≤ (body ++ c).length) := by
            rintro ⟨-, hle⟩
            rw [List.length_append] at hle
            omega
          simp only [readLoop]
          rw [if_neg hbody, if_neg hcne]
          have hbelow' : ∀ i ≤ k', (body ++ c).length + chunksPrefixLen rest i < L := by
            intro i hi
            have h2 := hbelow (i + 1) (by omega)
            rw [chunksPrefixLen_cons] at h2
            rw [List.length_append]
            omega
          have hcroeq : chunksPrefixLen (c :: rest) (k' + 1 + 1)
              = c.length + chunksPrefixLen rest (k' + 1) :=
            chunksPrefixLen_cons c rest (k' + 1)
          have hcross' : L ≤ (body ++ c).length + chunksPrefixLen rest (k' + 1) := by
            rw [List.length_append]
            omega
          rw [ih (body ++ c) k' (fun d hd => hne d (by simp [hd])) hbelow' hcross']
          rw [List.drop_succ_cons, hcroeq, List.length_append, Nat.add_assoc]

/-- C1: for a positive configured limit `L` and a stream of (nonempty) payload
chunks, `Request.read` succeeds with the concatenation of all chunks when the
accumulated size stays strictly below `L` throughout, and fails with an
`HTTPRequestEntityTooLarge` carrying the limit and the size accumulated at the
first crossing point — leaving the rest of the stream undrained — as soon as
an intermediate accumulated size reaches `L`. -/
theorem read_respects_client_max_size (L : Nat) (chunks : List (List Nat))
    (hL : 0 < L) (hne : ∀ c ∈ chunks, c ≠ []) :
    (chunks.flatten.length < L →
      requestRead L ⟨none, chunks⟩ =
        (.ok chunks.flatten, ⟨some chunks.flatten, []⟩))
    ∧ (∀ k, (∀ i ≤ k, chunksPrefixLen chunks i < L) →
        L ≤ chunksPrefixLen chunks (k + 1) →
        requestRead L ⟨none, chunks⟩ =
          (.error ⟨L, chunksPrefixLen chunks (k + 1)⟩,
            ⟨none, chunks.drop (k + 1)⟩)) := by
  constructor
  · intro htotal
    have h := readLoop_ok L chunks [] hne (by simpa using htotal)
    simp only [List.nil_append] at h
    simp [requestRead, h]
  · intro k hbelow hcross
    have h := readLoop_error L chunks [] k hne
      (by intro i hi; simpa using hbelow i hi) (by simpa using hcross)
    simp only [List.length_nil, Nat.zero_add] at h
    simp [requestRead, h]

/-- Witness for C1 at concrete inputs: limit 10 lets the two chunks
`[1,2]`, `[3,4]` through and returns their concatenation; limit 3 fails at
the second chunk with limit 3 and observed size 4, leaving the stream
drained only up to that point. -/
theorem read_respects_client_max_size_witness :
    requestRead 10 ⟨none, [[1, 2], [3, 4]]⟩ =
      (.ok [1, 2, 3, 4], ⟨some [1, 2, 3, 4], []⟩)
    ∧ requestRead 3 ⟨none, [[1, 2], [3, 4]]⟩ =
      (.error ⟨3, 4⟩, ⟨none, []⟩) := by
  constructor
  · exact (read_respects_client_max_size 10 [[1, 2], [3, 4]]
      (by decide) (by decide)).1 (by decide)
  · exact (read_respects_client_max_size 3 [[1, 2], [3, 4]]
      (by decide) (by decide)).2 1 (by decide) (by decide)

/-- C2: a successful `read` stores the full byte sequence in `_read_bytes`,
and a repeated `read` returns the identical cached bytes while leaving the
whole state — the remaining stream included — untouched. -/
theorem read_idempotent (L : Nat) (s : ReadState) (b : List Nat)
    (s' : ReadState) (h : requestRead L s = (.ok b, s')) :
    s'.read_bytes = some b ∧ requestRead L s' = (.ok b, s') := by
  rcases s with ⟨rb, stream⟩
  cases rb with
  | some b0 =>
      have h' : ((.ok b0, ⟨some b0, stream⟩) :
          Except HTTPRequestEntityTooLarge (List Nat) × ReadState) = (.ok b, s') := h
      injection h' with h1 h2
      injection h1 with h1
      subst h1
      subst h2
      exact ⟨rfl, rfl⟩
  | none =>
      simp only [requestRead] at h
      rcases hr : readLoop L [] stream with ⟨res, rest⟩
      rw [hr] at h
      cases res with
      | ok body =>
          injection h with h1 h2
          injection h1 with h1
          subst h1
          subst h2
          exact ⟨rfl, rfl⟩
      | error e0 =>
          simp at h

/-- Witness for C2: after a first successful read of the single chunk
`[1,2]` under limit 10, the repeated read returns the same bytes and the
same state. -/
theorem read_idempotent_witness :
    requestRead 10 ⟨some [1, 2], []⟩ = (.ok [1, 2], ⟨some [1, 2], []⟩) :=
  (read_idempotent 10 ⟨none, [[1, 2]]⟩ [1, 2] ⟨some [1, 2], []⟩ rfl).2

/-- C10: when `read` fails with `HTTPRequestEntityTooLarge`, no partial body
is cached (`_read_bytes` is still unset), and a later `read` call drains the
stream again instead of returning a truncated body: whatever the fresh drain
of the remaining stream produces is what the retry returns. -/
theorem read_failure_leaves_cache_unset (L : Nat) (chunks : List (List Nat))
    (e : HTTPRequestEntityTooLarge) (s' : ReadState)
    (h : requestRead L ⟨none, chunks⟩ = (.error e, s')) :
    s'.read_bytes = none
    ∧ (∀ body rest, readLoop L [] s'.stream = (.ok body, rest) →
        requestRead L s' = (.ok body, ⟨some body, rest⟩)) := by
  simp only [requestRead] at h
  rcases hr : readLoop L [] chunks with ⟨res, rest0⟩
  rw [hr] at h
  cases res with
  | ok body => simp at h
  | error e0 =>
      injection h with h1 h2
      subst h2
      refine ⟨rfl, ?_⟩
      intro body rest hloop
      simp [requestRead, hloop]

/-- Witness for C10: with limit 3 the chunk `[1,2,3]` overflows; afterwards
`_read_bytes` is unset and the retry on the (now empty) stream returns the
freshly drained empty body. -/
theorem read_failure_leaves_cache_unset_witness :
    requestRead 3 ⟨none, []⟩ = (.ok [], ⟨some [], []⟩) :=
  (read_failure_leaves_cache_unset 3 [[1, 2, 3]] ⟨3, 3⟩ ⟨none, []⟩
    rfl).2 [] [] rfl

/-! ## The lazy attribute cache backing the `@reify` properties -/

/-- Modelled from the spec: the lazy attribute cache (`aiohttp.helpers.reify`,
external to `src/`) backing the `@reify` properties of `Request` and the
per-instance `_cache` dict initialised in `__init__`.  "The first read of a
declared lazy attribute invokes its computation function exactly once, stores
the result on the owning instance, and every subsequent read (for that
instance) returns the stored value directly without recomputation."  `count`
instruments how many times `compute` has run. -/
structure Lazy (α : Type) where
  compute : Unit → α
  cached : Option α
  count : Nat

/-- One attribute read: return the cached value if present, otherwise run the
computation, store its result, and return it. -/
def Lazy.get {α : Type} (l : Lazy α) : α × Lazy α :=
  match l.cached with
  | some v => (v, l)
  | none =>
      let v := l.compute ()
      (v, { l with cached := some v, count := l.count + 1 })

/-- `n` successive attribute reads, collecting the returned values. -/
def Lazy.getN {α : Type} : Nat → Lazy α → List α × Lazy α
  | 0, l => ([], l)
  | n + 1, l =>
      let (v, l') := l.get
      let (vs, l'') := Lazy.getN n l'
      (v :: vs, l'')

theorem Lazy.get_cached {α : Type} (f : Unit → α) (v : α) (cnt : Nat) :
    Lazy.get ⟨f, some v, cnt⟩ = (v, ⟨f, some v, cnt⟩) := rfl

theorem Lazy.getN_cached {α : Type} (f : Unit → α) (v : α) (cnt : Nat) :
    ∀ n, Lazy.getN n ⟨f, some v, cnt⟩ = (List.replicate n v, ⟨f, some v, cnt⟩) := by
  intro n
  induction n with
  | zero => rfl
  | succ m ih => simp [Lazy.getN, Lazy.get, ih, List.replicate]

/-- C3: starting from a fresh instance (nothing cached, computation never
run), any positive number `n` of reads of a lazy property all return the one
computed value, and the computation has run exactly once — the value is
stored after the first read and later reads return the stored value without
recomputation. -/
theorem lazy_property_computes_once {α : Type} (f : Unit → α) (n : Nat)
    (hn : 1 ≤ n) :
    Lazy.getN n ⟨f, none, 0⟩ = (List.replicate n (f ()), ⟨f, some (f ()), 1⟩) := by
  cases n with
  | zero => omega
  | succ m =>
      simp [Lazy.getN, Lazy.get, Lazy.getN_cached, List.replicate]

/-- Witness for C3: two reads of a lazy property computing `7` both return
`7`, the result is cached, and the computation ran exactly once. -/
theorem lazy_property_computes_once_witness :
    Lazy.getN 2 ⟨fun _ => (7 : Nat), none, 0⟩
      = ([7, 7], ⟨fun _ => (7 : Nat), some 7, 1⟩) := by
  have h := lazy_property_computes_once (fun _ => (7 : Nat)) 2 (by decide)
  simpa [List.replicate] using h

/-! ## Construction-time data and the derived header / uid / method views -/

/-- The arguments the transport layer supplies to `Request.__init__`
(request.py lines 74-102), restricted to the fields the claims are about.
Raw header bytes and the decoded query string are represented by their
UTF-8-decoded `String` views. -/
structure RequestInit where
  scheme : String
  method : String
  path : String
  query_string : String
  raw_headers : List (String × String)
  client_max_size : Nat
deriving DecidableEq, Repr

/-- Lower-casing used for the case-insensitive key matching of
`multidict.CIMultiDict` (external to `src/`). -/
def lowerStr (s : String) : String :=
  String.mk (s.data.map Char.toLower)

/-- Modelled from the spec: first-value lookup `m[k]` of a case-insensitive
multi-valued mapping (`multidict.CIMultiDict`, external to `src/`); also the
`k in m` membership test, via `Option.isSome`. -/
def ciGetFirst (m : List (String × String)) (k : String) : Option String :=
  (m.find? (fun p => lowerStr p.1 = lowerStr k)).map Prod.snd

/-- Modelled from the spec: `m.getall(k)` of a case-insensitive multi-valued
mapping — every value whose key matches `k` case-insensitively, in insertion
order. -/
def ciGetAll (m : List (String × String)) (k : String) : List String :=
  (m.filter (fun p => lowerStr p.1 = lowerStr k)).map Prod.snd

/-- `Request.headers` (request.py lines 263-271): a `CIMultiDict` built by
`add`-ing every raw header pair in order, so the underlying entry list is the
raw header list itself. -/
def requestHeaders (r : RequestInit) : List (String × String) :=
  r.raw_headers

/-- `Request.method` (request.py lines 206-212): `return self._method`. -/
def requestMethod (r : RequestInit) : String :=
  r.method

/-- `Request.uid` (request.py lines 158-165) as a function of the current
`_uid` slot: on first access, prefer the `X-FORWARDED-REQUEST-UID` header
(first value, matched case-insensitively) and otherwise a freshly generated
`uuid.uuid4().hex` (supplied here as `fresh`); store the choice in `_uid`.
The source tests `in` before indexing; here the contains-then-index pair is
expressed as one `Option`-valued first-value lookup. -/
def requestUid (r : RequestInit) (fresh : String) (uid : Option String) :
    String × Option String :=
  match uid with
  | some u => (u, some u)
  | none =>
      match ciGetFirst (requestHeaders r) "X-FORWARDED-REQUEST-UID" with
      | some v => (v, some v)
      | none => (fresh, some fresh)

/-- C4: the first `uid` access stores its result in `_uid`; any later access
returns the identical stored value no matter what fresh identifier the later
access could have generated.  The first access yields the verbatim value of
the `X-FORWARDED-REQUEST-UID` header (matched case-insensitively) when one is
present, and the freshly generated identifier when none is. -/
theorem uid_stable_and_prefers_forwarded_header (r : RequestInit)
    (fresh fresh' : String) :
    ((requestUid r fresh' (requestUid r fresh none).2).1
        = (requestUid r fresh none).1
      ∧ (requestUid r fresh' (requestUid r fresh none).2).2
        = (requestUid r fresh none).2)
    ∧ (∀ v, ciGetFirst (requestHeaders r) "X-FORWARDED-REQUEST-UID" = some v →
        (requestUid r fresh none).1 = v)
    ∧ (ciGetFirst (requestHeaders r) "X-FORWARDED-REQUEST-UID" = none →
        (requestUid r fresh none).1 = fresh) := by
  rcases hfw : ciGetFirst (requestHeaders r) "X-FORWARDED-REQUEST-UID" with - | v
  · refine ⟨⟨?_, ?_⟩, ?_, ?_⟩ <;>
      simp [requestUid, hfw]
  · refine ⟨⟨?_, ?_⟩, ?_, ?_⟩ <;>
      simp [requestUid, hfw]

/-- Witness for C4 at concrete inputs: a lower-cased
`x-forwarded-request-uid: abc-123` header yields `uid = "abc-123"` and not
the fresh identifier; with no matching header the fresh identifier `"f1"` is
used and a second access returns it again unchanged. -/
theorem uid_stable_and_prefers_forwarded_header_witness :
    (requestUid ⟨"http", "GET", "/", "", [("x-forwarded-request-uid", "abc-123")], 0⟩
        "f0" none).1 = "abc-123"
    ∧ (requestUid ⟨"http", "GET", "/", "", [("content-type", "text/plain")], 0⟩
        "f1" none).1 = "f1"
    ∧ (requestUid ⟨"http", "GET", "/", "", [("content-type", "text/plain")], 0⟩
        "f2" (requestUid ⟨"http", "GET", "/", "", [("content-type", "text/plain")], 0⟩
          "f1" none).2).1 = "f1" := by
  refine ⟨?_, ?_, ?_⟩
  · exact (uid_stable_and_prefers_forwarded_header
      ⟨"http", "GET", "/", "", [("x-forwarded-request-uid", "abc-123")], 0⟩
      "f0" "f0").2.1 "abc-123" (by decide)
  · exact (uid_stable_and_prefers_forwarded_header
      ⟨"http", "GET", "/", "", [("content-type", "text/plain")], 0⟩
      "f1" "f2").2.2 (by decide)
  · rw [(uid_stable_and_prefers_forwarded_header
      ⟨"http", "GET", "/", "", [("content-type", "text/plain")], 0⟩
      "f1" "f2").1.1]
    exact (uid_stable_and_prefers_forwarded_header
      ⟨"http", "GET", "/", "", [("content-type", "text/plain")], 0⟩
      "f1" "f2").2.2 (by decide)

/-- Counterexample to C7 as stated: a request constructed with the
lower-case method string `"get"` has `method = "get"`, not the upper-cased
`"GET"` — the property returns `self._method` without normalizing. -/
theorem method_not_normalized_counterexample :
    requestMethod ⟨"http", "get", "/", "", [], 0⟩ = "get"
    ∧ requestMethod ⟨"http", "get", "/", "", [], 0⟩ ≠ "GET" := by
  constructor
  · rfl
  · decide

/-- C7 (amended): `Request.method` returns the method string exactly as
supplied at construction, performing no case normalization (the docstring's
"upper-cased str" describes the values the transport supplies, not a
transformation). -/
theorem method_returns_construction_value (scheme m path qs : String)
    (hdrs : List (String × String)) (maxSize : Nat) :
    requestMethod ⟨scheme, m, path, qs, hdrs, maxSize⟩ = m := rfl

/-! ## The `_state` mapping (MutableMapping API, request.py lines 187-200) -/

/-- The `KeyError` raised by `del self._state[key]` (and `self._state[key]`)
on an absent key. -/
structure KeyNotFound where
  key : String
deriving DecidableEq, Repr

/-- `Request.__getitem__`: `return self._state[key]`; a Python dict lookup
returns the entry stored for the key and raises `KeyError` when absent.
`_state` is modelled as its entry list in insertion order (keys unique). -/
def stateGet {α : Type} (st : List (String × α)) (k : String) :
    Except KeyNotFound α :=
  match st.find? (fun p => p.1 == k) with
  | some p => .ok p.2
  | none => .error ⟨k⟩

/-- `Request.__setitem__`: `self._state[key] = value`; a dict store replaces
the value in place when the key is present and appends a new entry
otherwise. -/
def stateSet {α : Type} (st : List (String × α)) (k : String) (v : α) :
    List (String × α) :=
  if st.any (fun p => p.1 == k) then
    st.map (fun p => if p.1 == k then (k, v) else p)
  else
    st ++ [(k, v)]

/-- `Request.__delitem__`: `del self._state[key]`; removes the entry when the
key is present and raises `KeyError` otherwise. -/
def stateDel {α : Type} (st : List (String × α)) (k : String) :
    Except KeyNotFound (List (String × α)) :=
  if st.any (fun p => p.1 == k) then
    .ok (st.filter (fun p => !(p.1 == k)))
  else
    .error ⟨k⟩

/-- `Request.__len__`: `return len(self._state)` — the number of stored
keys. -/
def stateLen {α : Type} (st : List (String × α)) : Nat :=
  st.length

theorem find?_append_of_none {α : Type} (f : (String × α) → Bool)
    (l₂ : List (String × α)) :
    ∀ l₁ : List (String × α), l₁.any f = false →
      (l₁ ++ l₂).find? f = l₂.find? f := by
  intro l₁
  induction l₁ with
  | nil => intro _; rfl
  | cons a tl ih =>
      intro h
      rw [List.any_cons, Bool.or_eq_false_iff] at h
      rw [List.cons_append, List.find?_cons, h.1]
      exact ih h.2

theorem find?_map_overwrite {α : Type} (k : String) (v : α) :
    ∀ st : List (String × α), st.any (fun p => p.1 == k) = true →
      ((st.map (fun p => if p.1 == k then (k, v) else p)).find?
          (fun p => p.1 == k)) = some (k, v) := by
  intro st
  induction st with
  | nil => intro h; simp at h
  | cons a tl ih =>
      intro h
      by_cases ha : a.1 = k
      · simp [List.find?_cons, ha]
      · have ha' : (a.1 == k) = false := by simp [ha]
        rw [List.any_cons, ha', Bool.false_or] at h
        rw [List.map_cons, List.find?_cons, if_neg (by simp [ha]), ha']
        exact ih h

theorem filter_length_of_present {α : Type} (k : String) :
    ∀ st : List (String × α), (st.map Prod.fst).Nodup →
      st.any (fun p => p.1 == k) = true →
      (st.filter (fun p => !(p.1 == k))).length + 1 = st.length := by
  intro st
  induction st with
  | nil => intro _ h; simp at h
  | cons a tl ih =>
      intro hnd h
      rw [List.map_cons, List.nodup_cons] at hnd
      by_cases ha : a.1 = k
      · have hall : tl.filter (fun p => !(p.1 == k)) = tl := by
          apply List.filter_eq_self.mpr
          intro p hp
          have : p.1 ≠ k := by
            intro hpk
            exact hnd.1 (by
              rw [ha, ← hpk]
              exact List.mem_map_of_mem Prod.fst hp)
          simp [this]
        rw [List.filter_cons, if_neg (by simp [ha]), hall, List.length_cons]
      · have ha' : (a.1 == k) = false := by simp [ha]
        rw [List.any_cons, ha', Bool.false_or] at h
        rw [List.filter_cons, if_pos (by simp [ha]), List.length_cons,
          List.length_cons]
        rw [← ih hnd.2 h]

/-- C5: the `_state` mapping operations — under the dict invariant that
stored keys are unique — satisfy: a `set` followed by a `get` of the same
key returns the stored value; a `delete` of an absent key fails with
`KeyError` naming the key; `len` counts the currently set keys (a `set`
leaves it unchanged on overwrite and increments it for a new key, and a
successful `delete` decrements it by one). -/
theorem state_mapping_ops {α : Type} (st : List (String × α)) (k : String)
    (v : α) (hkeys : (st.map Prod.fst).Nodup) :
    stateGet (stateSet st k v) k = .ok v
    ∧ (st.any (fun p => p.1 == k) = false → stateDel st k = .error ⟨k⟩)
    ∧ stateLen (stateSet st k v)
        = (if st.any (fun p => p.1 == k) then stateLen st else stateLen st + 1)
    ∧ (∀ st', stateDel st k = .ok st' → stateLen st' + 1 = stateLen st) := by
  refine ⟨?_, ?_, ?_, ?_⟩
  · by_cases h : st.any (fun p => p.1 == k)
    · rw [stateSet, if_pos h, stateGet, find?_map_overwrite k v st h]
    · rw [stateSet, if_neg h, stateGet,
        find?_append_of_none _ _ st (Bool.of_not_eq_true h)]
      simp [List.find?_cons]
  · intro h
    rw [stateDel, if_neg (by simp [h])]
  · by_cases h : st.any (fun p => p.1 == k)
    · rw [stateSet, if_pos h, if_pos h, stateLen, stateLen, List.length_map]
    · rw [stateSet, if_neg h, if_neg h, stateLen, stateLen,
        List.length_append, List.length_cons, List.length_nil]
  · intro st' hdel
    by_cases h : st.any (fun p => p.1 == k)
    · rw [stateDel, if_pos h] at hdel
      injection hdel with hdel
      subst hdel
      exact filter_length_of_present k st hkeys h
    · rw [stateDel, if_neg h] at hdel
      exact absurd hdel (by simp)

/-- Witness for C5 at concrete inputs: `set "b" "2"` on `{"a": "1"}` then
`get "b"` yields `"2"` and `len` becomes `2`; deleting the missing key from
the empty mapping fails with `KeyError("missing")`; deleting the present key
`"a"` from `{"a": "1", "b": "2"}` shrinks `len` from `2` to `1`. -/
theorem state_mapping_ops_witness :
    stateGet (stateSet [("a", "1")] "b" "2") "b" = .ok "2"
    ∧ stateDel ([] : List (String × String)) "missing" = .error ⟨"missing"⟩
    ∧ stateLen (stateSet [("a", "1")] "b" "2") = 2
    ∧ stateLen [("b", "2")] + 1 = stateLen [("a", "1"), ("b", "2")] := by
  refine ⟨?_, ?_, ?_, ?_⟩
  · exact (state_mapping_ops [("a", "1")] "b" "2" (by decide)).1
  · exact (state_mapping_ops ([] : List (String × String)) "missing" "?"
      (by decide)).2.1 rfl
  · have h := (state_mapping_ops [("a", "1")] "b" "2" (by decide)).2.2.1
    rw [if_neg (by decide)] at h
    exact h
  · exact (state_mapping_ops [("a", "1"), ("b", "2")] "a" "?"
      (by decide)).2.2.2 [("b", "2")] rfl

/-! ## Query-string parsing (`Request.query`, request.py lines 248-253) -/

/-- Python `str.split('&')`: splits on every `'&'`, keeping empty fields
(part of `urllib.parse.parse_qsl`, external to `src/`). -/
def splitAmp : List Char → List (List Char)
  | [] => [[]]
  | c :: rest =>
      let r := splitAmp rest
      if c = '&' then [] :: r
      else
        match r with
        | [] => [[c]]
        | g :: gs => (c :: g) :: gs

/-- Python `s.split('=', 1)` restricted to its two outcomes: `none` when the
string holds no `'='`, else the parts before and after the first `'='`. -/
def splitFirstEq : List Char → Option (List Char × List Char)
  | [] => none
  | c :: rest =>
      if c = '=' then some ([], rest)
      else (splitFirstEq rest).map (fun p => (c :: p.1, p.2))

/-- Value of a hexadecimal digit character, if it is one. -/
def hexVal (c : Char) : Option Nat :=
  if '0' ≤ c ∧ c ≤ '9' then some (c.toNat - '0'.toNat)
  else if 'a' ≤ c ∧ c ≤ 'f' then some (c.toNat - 'a'.toNat + 10)
  else if 'A' ≤ c ∧ c ≤ 'F' then some (c.toNat - 'A'.toNat + 10)
  else none

/-- Percent-decoding of `urllib.parse.unquote` (external to `src/`): a `'%'`
followed by two hex digits decodes to that code point (single-byte escapes;
the claims involve none), anything else passes through unchanged.  `fuel`
only funds the recursion (each step consumes at least one character, so
`fuel = l.length` never runs out); it keeps the recursion structural. -/
def percentDecodeAux : Nat → List Char → List Char
  | _, [] => []
  | 0, l => l
  | fuel + 1, '%' :: a :: b :: rest2 =>
      (match hexVal a, hexVal b with
        | some hi, some lo =>
            Char.ofNat (16 * hi + lo) :: percentDecodeAux fuel rest2
        | _, _ => '%' :: percentDecodeAux fuel (a :: b :: rest2))
  | fuel + 1, c :: rest => c :: percentDecodeAux fuel rest

def percentDecode (l : List Char) : List Char :=
  percentDecodeAux l.length l

/-- `unquote(s.replace('+', ' '))` applied by `parse_qsl` to each name and
value. -/
def unquotePlus (s : List Char) : String :=
  String.mk (percentDecode (s.map (fun c => if c = '+' then ' ' else c)))

/-- Modelled from the spec: `urllib.parse.parse_qsl` with its default
arguments (stdlib, external to `src/`), as called by `Request.query`: split
the query string on `'&'`; skip empty fields, fields without `'='`, and
fields with an empty value (`keep_blank_values=False`); percent-and-plus
decode each kept name and value. -/
def parseQsl (qs : String) : List (String × String) :=
  (splitAmp qs.data).filterMap (fun nv =>
    match nv with
    | [] => none
    | _ =>
        match splitFirstEq nv with
        | none => none
        | some (n, v) =>
            match v with
            | [] => none
            | _ => some (unquotePlus n, unquotePlus v))

/-- `Request.query` (request.py lines 248-253):
`CIMultiDict(parse_qsl(self._query_string.decode("utf-8")))` — the
multi-valued mapping holding the parsed pairs in order. -/
def requestQuery (r : RequestInit) : List (String × String) :=
  parseQsl r.query_string

/-- C6: parsing the raw query string `a=1&a=2&b=3` yields a case-insensitive
multi-valued mapping with the two values `["1", "2"]` for key `"a"` (also
under the upper-cased lookup key `"A"`) and the one value `["3"]` for key
`"b"`. -/
theorem query_parses_multivalued :
    ciGetAll (requestQuery ⟨"http", "GET", "/", "a=1&a=2&b=3", [], 0⟩) "a"
        = ["1", "2"]
    ∧ ciGetAll (requestQuery ⟨"http", "GET", "/", "a=1&a=2&b=3", [], 0⟩) "b"
        = ["3"]
    ∧ ciGetAll (requestQuery ⟨"http", "GET", "/", "a=1&a=2&b=3", [], 0⟩) "A"
        = ["1", "2"] := by
  refine ⟨?_, ?_, ?_⟩ <;> rfl

/-! ## The WebSocket adapter (`GuillotinaWebSocket`, request.py lines 24-49) -/

inductive WSMsgType where
  | TEXT
deriving DecidableEq, Repr

/-- `aiohttp.web_ws.WSMessage` as constructed on request.py line 49:
`WSMessage(WSMsgType.TEXT, msg, '')`. -/
structure WSMessage where
  msg_type : WSMsgType
  data : String
  extra : String
deriving DecidableEq, Repr

/-- What the awaited `self.ws.receive_text()` does on one iteration step:
deliver a text message, or raise `WebSocketDisconnect` because the peer
disconnected. -/
inductive WSReceiveOutcome where
  | text (s : String)
  | disconnect
deriving DecidableEq, Repr

/-- Calls the adapter makes on the underlying socket during one
`__anext__`. -/
inductive WSCall where
  | receive_text
  | close
deriving DecidableEq, Repr

/-- How one `__anext__` resolves for the iterating caller. -/
inductive AnextOutcome where
  | msg (m : WSMessage)
  | stopAsyncIteration
  | failure (e : String)
deriving DecidableEq, Repr

/-- `GuillotinaWebSocket.__anext__` (request.py lines 42-49): await
`receive_text()`; on a message, wrap it as a TEXT `WSMessage`; on
`WebSocketDisconnect`, await `self.close()` and then raise
`StopAsyncIteration`.  Returns the ordered underlying-socket call trace
together with the outcome signalled to the caller. -/
def GuillotinaWebSocket.anext (recv : WSReceiveOutcome) :
    List WSCall × AnextOutcome :=
  match recv with
  | .text s => ([.receive_text], .msg ⟨.TEXT, s, ""⟩)
  | .disconnect => ([.receive_text, .close], .stopAsyncIteration)

/-- C8: when the peer disconnects during iteration, `__anext__` performs the
adapter's own close handshake (the trailing `close` in the call trace,
after the failed receive) and then signals end of iteration —
`StopAsyncIteration`, not an error — while a delivered message is yielded as
a TEXT frame without closing. -/
theorem ws_disconnect_closes_then_stops_iteration :
    GuillotinaWebSocket.anext .disconnect
        = ([.receive_text, .close], .stopAsyncIteration)
    ∧ (∀ s, GuillotinaWebSocket.anext (.text s)
        = ([.receive_text], .msg ⟨.TEXT, s, ""⟩)) :=
  ⟨rfl, fun _ => rfl⟩

/-! ## Futures bookkeeping (`clear_futures` / `add_future`) -/

/-- One deferred entry registered in the process-wide registry. -/
structure FutureEntry where
  name : String
  scope : String
deriving DecidableEq, Repr

/-- Modelled from the spec: `execute.add_future` of the process-wide
deferred-execution registry (`guillotina.utils`, external to `src/`), to
which `Request.add_future` (request.py lines 117-127) delegates; it
registers the entry and never fails, keeping earlier entries. -/
def addFuture (reg : List FutureEntry) (e : FutureEntry) : List FutureEntry :=
  reg ++ [e]

/-- The per-instance mutable fields of a `Request` relevant to the frame
condition of `clear_futures`: `_state`, `_read_bytes`, `_uid`, the local
`_futures` bookkeeping dict, and `_events`. -/
structure RequestRuntime where
  state : List (String × String)
  read_bytes : Option (List Nat)
  uid : Option String
  futures : List (String × FutureEntry)
  events : List (String × Nat)
deriving DecidableEq, Repr

/-- `Request.clear_futures` (request.py lines 155-156): `self._futures = {}`
— it touches only the instance's own `_futures` dict and leaves the shared
registry alone. -/
def clearFutures (r : RequestRuntime) (reg : List FutureEntry) :
    RequestRuntime × List FutureEntry :=
  ({ r with futures := [] }, reg)

/-- C9: `clear_futures` resets the request's local `_futures` bookkeeping to
empty and nothing else — an entry already registered in the shared registry
(via `add_future`) is still registered afterwards, the registry is returned
unchanged, and every other `Request` field keeps its value. -/
theorem clear_futures_resets_local_bookkeeping_only (r : RequestRuntime)
    (reg : List FutureEntry) (e : FutureEntry) :
    (clearFutures r (addFuture reg e)).2 = addFuture reg e
    ∧ e ∈ (clearFutures r (addFuture reg e)).2
    ∧ (clearFutures r reg).1.futures = []
    ∧ (clearFutures r reg).1.state = r.state
    ∧ (clearFutures r reg).1.read_bytes = r.read_bytes
    ∧ (clearFutures r reg).1.uid = r.uid
    ∧ (clearFutures r reg).1.events = r.events := by
  refine ⟨rfl, ?_, rfl, rfl, rfl, rfl, rfl⟩
  simp [clearFutures, addFuture]

end Guillotina
